import Mathlib

set_option linter.unusedVariables false

/-! Verification of the session/state-sync subsystem of
`pre_calc_placement_coach.jsx` (repository `ack-precalc`).

Strings are modelled as Lean `String` / `List Char` (sequences of Unicode
scalar values); the JavaScript regular expressions of the source are
translated into executable scanners with the same matching semantics,
noted at each definition. -/

/-- Character class of the JavaScript regex class `\s`, which is also the
set of characters removed by `String.prototype.trim`: tab, LF, VT, FF, CR,
space, NBSP, Ogham space, the U+2000..U+200A spaces, LS, PS, NNBSP, MMSP,
ideographic space and BOM. -/
def jsWs (c : Char) : Bool :=
  let n := c.toNat
  n == 9 || n == 10 || n == 11 || n == 12 || n == 13 || n == 32 ||
  n == 160 || n == 5760 || (decide (8192 ≤ n) && decide (n ≤ 8202)) ||
  n == 8232 || n == 8233 || n == 8239 || n == 8287 || n == 12288 || n == 65279

/-- JavaScript `String.prototype.trim` on a list of characters. -/
def jsTrim (l : List Char) : List Char :=
  ((l.dropWhile jsWs).reverse.dropWhile jsWs).reverse

/-- JavaScript regex class `\w`: ASCII letters, digits and underscore. -/
def isWordChar (c : Char) : Bool := c.isAlphanum || c == '_'

/-- JavaScript line terminators (after which the multiline anchor `^`
matches): LF, CR, LS, PS. -/
def isLineTerm (c : Char) : Bool :=
  c == '\n' || c == '\r' || c.toNat == 8232 || c.toNat == 8233

/-- Test of `/^STATE$/i` on an (already trimmed) input, as in the
`sendUser` guard `/^STATE$/i.test(text.trim())`.  The `i` flag of a
non-unicode JavaScript regex canonicalises via ASCII upper-casing. -/
def isToggleCommand (text : String) : Bool :=
  (jsTrim text.data).map Char.toUpper == "STATE".data

/-- Does the word `STATE` (case-insensitive) occur at the head of `s`,
with the previous character `prev` and the following character both
outside the class `\w`?  This is one candidate position of `/\bSTATE\b/i`. -/
def stateWordAt (prev : Option Char) (s : List Char) : Bool :=
  match s with
  | c1 :: c2 :: c3 :: c4 :: c5 :: rest =>
      [c1, c2, c3, c4, c5].map Char.toUpper == "STATE".data &&
      (match prev with | some p => !isWordChar p | none => true) &&
      (match rest with | c :: _ => !isWordChar c | [] => true)
  | _ => false

/-- Scan for `/\bSTATE\b/i` keeping track of the previous character. -/
def containsWordStateFrom (prev : Option Char) : List Char → Bool
  | [] => false
  | c :: t => stateWordAt prev (c :: t) || containsWordStateFrom (some c) t

/-- Test of `/\bSTATE\b/i.test(text)` used in `sendUser` to decide the
implicit-hide branch. -/
def containsWordSTATE (l : List Char) : Bool := containsWordStateFrom none l

/-- Match the fence opener of the code-block regex
`/```[a-zA-Z]*\n([\s\S]*?)```/g` at the head of `s`: three backticks, an
optional ASCII-letter language tag, then a newline.  Returns the text
following the opening newline. -/
def fenceOpen (s : List Char) : Option (List Char) :=
  if (['`', '`', '`'] : List Char).isPrefixOf s then
    match (s.drop 3).dropWhile Char.isAlpha with
    | '\n' :: r => some r
    | _ => none
  else none

/-- Find the earliest closing triple backtick (the lazy `[\s\S]*?`
semantics); returns the inner text and the text after the closing fence. -/
def findClose : List Char → Option (List Char × List Char)
  | [] => none
  | c :: t =>
      if (['`', '`', '`'] : List Char).isPrefixOf (c :: t) then some ([], t.drop 2)
      else (findClose t).map (fun p => (c :: p.1, p.2))

theorem fenceOpen_length {s r : List Char} (h : fenceOpen s = some r) :
    r.length + 4 ≤ s.length := by
  unfold fenceOpen at h
  by_cases hp : (['`', '`', '`'] : List Char).isPrefixOf s
  · rw [if_pos hp] at h
    have hlen : 3 ≤ s.length := by
      have := List.IsPrefix.length_le (List.isPrefixOf_iff_prefix.mp hp)
      simpa using this
    have hdw : ((s.drop 3).dropWhile Char.isAlpha).length ≤ s.length - 3 := by
      have h1 := (List.dropWhile_sublist (l := s.drop 3) Char.isAlpha).length_le
      simpa using h1
    match hm : (s.drop 3).dropWhile Char.isAlpha with
    | '\n' :: r2 =>
        rw [hm] at h
        cases h
        rw [hm] at hdw
        simp at hdw
        omega
    | [] => rw [hm] at h; cases h
    | c2 :: r2 =>
        rw [hm] at h
        by_cases hc : c2 = '\n'
        · subst hc; rw [hm] at hdw; simp at hdw; cases h; omega
        · simp [hc] at h
  · rw [if_neg hp] at h; cases h

theorem findClose_length {s a r : List Char} (h : findClose s = some (a, r)) :
    r.length + 3 ≤ s.length := by
  induction s generalizing a r with
  | nil => simp [findClose] at h
  | cons c t ih =>
    rw [findClose] at h
    by_cases hp : (['`', '`', '`'] : List Char).isPrefixOf (c :: t)
    · rw [if_pos hp] at h
      cases h
      have hlen : 3 ≤ (c :: t).length := by
        have := List.IsPrefix.length_le (List.isPrefixOf_iff_prefix.mp hp)
        simpa using this
      simp at hlen ⊢
      omega
    · rw [if_neg hp] at h
      match hc : findClose t with
      | none => rw [hc] at h; cases h
      | some p =>
          rw [hc] at h
          cases h
          have := ih hc
          simp
          omega

/-- Does the multiline pattern `\s*STATE\s*:` match starting at this
position (a line start)?  Both `\s*` runs are greedy and deterministic
here, and `\s` may consume line terminators. -/
def stateColonFrom (s : List Char) : Bool :=
  match s.dropWhile jsWs with
  | 'S' :: 'T' :: 'A' :: 'T' :: 'E' :: r =>
      match r.dropWhile jsWs with
      | ':' :: _ => true
      | _ => false
  | _ => false

/-- Scan for `/^\s*STATE\s*:/m` at the positions after a line terminator. -/
def stateAfterLineTerm : List Char → Bool
  | [] => false
  | c :: t => (isLineTerm c && stateColonFrom t) || stateAfterLineTerm t

/-- Test of `/^\s*STATE\s*:/m.test(block)` in `extractStateYaml`:
the pattern may match at the start of the block or after any line
terminator. -/
def blockHasState (b : List Char) : Bool :=
  stateColonFrom b || stateAfterLineTerm b

/-- Split a block into its lines (at JavaScript line terminators). -/
def splitLinesFrom (cur : List Char) : List Char → List (List Char)
  | [] => [cur.reverse]
  | c :: t =>
      if isLineTerm c then cur.reverse :: splitLinesFrom [] t
      else splitLinesFrom (c :: cur) t

/-- Lines of a block. -/
def splitLines (l : List Char) : List (List Char) := splitLinesFrom [] l

/-- Marker test as claim C1 words it: some single line of the block,
taken on its own, matches `^\s*STATE\s*:`. -/
def lineMarkerTest (b : List Char) : Bool :=
  (splitLines b).any stateColonFrom

/-- All well-closed fenced regions of a reply, in order, following the
scan of the global regex (after a match the scan resumes after the
closing fence; an opener without a closing fence is skipped and the scan
moves one character forward).  The `fuel` argument only forces
termination; it is always called with at least the length of `s`, which
is enough because every step consumes at least one character. -/
def scanBlocksF (fuel : Nat) (s : List Char) : List (List Char) :=
  match fuel, s with
  | _, [] => []
  | 0, _ => []
  | fuel + 1, c :: t =>
      match fenceOpen (c :: t) with
      | some afterOpen =>
          match findClose afterOpen with
          | some p => p.1 :: scanBlocksF fuel p.2
          | none => scanBlocksF fuel t
      | none => scanBlocksF fuel t

/-- The well-closed fenced regions of a reply. -/
def scanBlocks (s : List Char) : List (List Char) := scanBlocksF s.length s

/-- The last block of `bs` satisfying `P` (the accumulator pattern of the
`while` loop, seen from the end). -/
def lastMatchingBlock (P : List Char → Bool) : List (List Char) → Option (List Char)
  | [] => none
  | b :: bs =>
      match lastMatchingBlock P bs with
      | some r => some r
      | none => if P b then some b else none

/-- The `while ((match = codeBlockRegex.exec(text)) !== null)` loop of
`extractStateYaml`; `acc` is the `lastYaml` accumulator, updated to the
trimmed block whenever the block passes the `STATE` marker test.  Fuel
as in `scanBlocksF`. -/
def extractLoopF (fuel : Nat) (s : List Char) (acc : Option (List Char)) :
    Option (List Char) :=
  match fuel, s with
  | _, [] => acc
  | 0, _ => acc
  | fuel + 1, c :: t =>
      match fenceOpen (c :: t) with
      | some afterOpen =>
          match findClose afterOpen with
          | some p =>
              extractLoopF fuel p.2 (if blockHasState p.1 then some (jsTrim p.1) else acc)
          | none => extractLoopF fuel t acc
      | none => extractLoopF fuel t acc

/-- The structured-block extractor `extractStateYaml`: the trimmed inner
text of the last well-closed fenced block passing the marker test, or
absent (`null`). -/
def extractStateYaml (text : String) : Option String :=
  (extractLoopF text.data.length text.data none).map String.mk

/-- The extractor as claim C1 words it: the last well-closed region that
contains a LINE matching the anchored pattern, trimmed. -/
def extractStateYamlClaim (text : String) : Option String :=
  (lastMatchingBlock lineMarkerTest (scanBlocks text.data)).map
    (fun b => String.mk (jsTrim b))

theorem extractLoopF_eq (fuel : Nat) : ∀ s : List Char, s.length ≤ fuel → ∀ acc,
    extractLoopF fuel s acc =
      match lastMatchingBlock blockHasState (scanBlocksF fuel s) with
      | some b => some (jsTrim b)
      | none => acc := by
  induction fuel with
  | zero =>
      intro s hs acc
      have : s = [] := List.length_eq_zero.mp (Nat.le_zero.mp hs)
      subst this
      simp [extractLoopF, scanBlocksF, lastMatchingBlock]
  | succ fuel ih =>
      intro s hs acc
      match s with
      | [] => simp [extractLoopF, scanBlocksF, lastMatchingBlock]
      | c :: t =>
          simp only [extractLoopF, scanBlocksF]
          match h1 : fenceOpen (c :: t) with
          | some afterOpen =>
              dsimp only
              match h2 : findClose afterOpen with
              | some p =>
                  dsimp only
                  have hlen : p.2.length ≤ fuel := by
                    have hh1 := fenceOpen_length h1
                    have hh2 := findClose_length (s := afterOpen) (a := p.1) (r := p.2)
                      (by simpa using h2)
                    simp at hh1 hs
                    omega
                  rw [ih p.2 hlen]
                  cases hl : lastMatchingBlock blockHasState (scanBlocksF fuel p.2) with
                  | some r => simp [lastMatchingBlock, hl]
                  | none =>
                      by_cases hb : blockHasState p.1 <;>
                        simp [lastMatchingBlock, hl, hb]
              | none =>
                  dsimp only
                  have hlen : t.length ≤ fuel := by simp at hs; omega
                  rw [ih t hlen]
          | none =>
              dsimp only
              have hlen : t.length ≤ fuel := by simp at hs; omega
              rw [ih t hlen]

/-- JavaScript regex class `\d`. -/
def isAsciiDigit (c : Char) : Bool := c.isDigit

/-- Value of a run of decimal digits (the `Number(...)` conversion of a
`(\d+)` capture). -/
def digitsVal (ds : List Char) : Nat :=
  ds.foldl (fun a c => a * 10 + (c.toNat - 48)) 0

/-- Try to match `<key>\s*(\d+)` at the head of `s` and return the
captured number.  Both `\s*` and `\d+` are deterministic here. -/
def readKeyNum (key : List Char) (s : List Char) : Option Nat :=
  if key.isPrefixOf s then
    let s1 := (s.drop key.length).dropWhile jsWs
    let ds := s1.takeWhile isAsciiDigit
    if ds.isEmpty then none else some (digitsVal ds)
  else none

/-- Greedy backtracking of `[^}]*` before the key: among the first `n + 1`
positions of `s`, the LAST position where `<key>\s*(\d+)` matches wins
(the regex engine backtracks from the longest `[^}]*` run). -/
def lastKeyNum (key : List Char) : Nat → List Char → Option Nat
  | 0, s => readKeyNum key s
  | n + 1, s =>
      match s with
      | [] => none
      | c :: t =>
          match lastKeyNum key n t with
          | some v => some v
          | none => readKeyNum key (c :: t)

/-- First-match scan of `/progress:\s*{[^}]*<key>\s*(\d+)/` over the text:
at each position, require the literal `progress:`, optional whitespace,
an opening brace, then search the brace-free run greedily for the key. -/
def progressScan (key : List Char) : List Char → Option Nat
  | [] => none
  | c :: t =>
      match
        (if ("progress:".data).isPrefixOf (c :: t) then
          match ((c :: t).drop 9).dropWhile jsWs with
          | '\x7b' :: s2 => lastKeyNum key ((s2.takeWhile (fun d => d ≠ '\x7d')).length) s2
          | _ => none
        else none) with
      | some v => some v
      | none => progressScan key t

/-- Result record of `parseStageProgress`. -/
structure StageProgress where
  current : Option Nat
  total : Nat
deriving DecidableEq

/-- The progress parser `parseStageProgress`: on a missing or empty
(falsy) input it returns `{current: null, total: 8}`; otherwise it runs
the two regex scans independently, `stages_total` defaulting to 8. -/
def parseStageProgress (y : Option String) : StageProgress :=
  match y with
  | none => ⟨none, 8⟩
  | some s =>
      if s = "" then ⟨none, 8⟩
      else
        ⟨progressScan "current_stage:".data s.data,
         (progressScan "stages_total:".data s.data).getD 8⟩

/-- One conversation message. -/
structure Msg where
  role : String
  content : String
deriving DecidableEq

/-- The mutable state of the `App` component that the session controller
reads and writes: conversation, composer input, busy flag, error banner,
debounce reference timestamp (`lastActionRef`), drawer visibility, last
extracted YAML, and the three settings fields.  The persisted stores
mirror `messages`, `lastYaml` and the settings on every change. -/
structure AppState where
  messages : List Msg
  input : String
  busy : Bool
  error : String
  lastAction : Int
  drawerOpen : Bool
  lastYaml : String
  baseUrl : String
  model : String
  apiKey : String
deriving DecidableEq

/-- The debounce guard `canAct`, acting on the shared `lastActionRef`:
returns whether the action is accepted and the new reference timestamp
(unchanged on rejection, `now` on acceptance). -/
def canAct (lastAction now : Int) : Bool × Int :=
  if now - lastAction < 300 then (false, lastAction) else (true, now)

/-- Substring occurrence test (used for literal-only regexes such as
`/openai\.com/`). -/
def containsSeq (pat : List Char) : List Char → Bool
  | [] => pat.isEmpty
  | c :: t => pat.isPrefixOf (c :: t) || containsSeq pat t

/-- Does `ensureSettings` succeed?  It throws when the base URL is empty,
or when the base URL matches `/openai\.com/` while the API key is empty. -/
def ensureSettingsOk (st : AppState) : Bool :=
  !(st.baseUrl == "") &&
  !(containsSeq "openai.com".data st.baseUrl.data && st.apiKey == "")

/-- The message of the error thrown by `ensureSettings`. -/
def ensureSettingsErr (st : AppState) : String :=
  if st.baseUrl = "" then "Base URL is required"
  else "API key required for OpenAI base URL"

/-- Outcome of the outbound call collaborator. -/
inductive CallResult where
  | ok (reply : String)
  | fail (msg : String)
deriving DecidableEq

/-- The part of `sendUser` before the outbound call: the empty-input
guard, the busy guard, the debounce guard, the local STATE toggle
shortcut, the settings check, and committing the user message.  Returns
the state at the moment `callChatCompletions` is awaited and whether the
call collaborator was invoked. -/
def sendUserStart (st : AppState) (text : String) (now : Int) : AppState × Bool :=
  if (jsTrim text.data).isEmpty then (st, false)
  else if st.busy then (st, false)
  else
    let g := canAct st.lastAction now
    let st1 := { st with lastAction := g.2 }
    if !g.1 then (st1, false)
    else if isToggleCommand text && !(st1.lastYaml == "") &&
        !(jsTrim st1.lastYaml.data).isEmpty then
      ({ st1 with drawerOpen := !st1.drawerOpen, input := "" }, false)
    else
      let st2 := { st1 with error := "" }
      if !ensureSettingsOk st2 then
        ({ st2 with error := ensureSettingsErr st2 }, false)
      else
        ({ st2 with
            messages := st2.messages ++ [⟨"user", text⟩],
            busy := true, input := "" }, true)

/-- The part of `sendUser` after the outbound call returns, applied to
the state current at completion time (React functional-updater
semantics): on failure set the error banner; on success run the
extractor, apply the visibility update rule, append the assistant
message; `busy` is cleared in the `finally` block either way. -/
def sendUserFinish (st : AppState) (text : String) (res : CallResult) : AppState :=
  match res with
  | .fail msg => { st with error := msg, busy := false }
  | .ok reply =>
      let st1 :=
        match extractStateYaml reply with
        | some y => { st with lastYaml := y, drawerOpen := true }
        | none =>
            if containsWordSTATE text.data then
              { st with drawerOpen := false, lastYaml := "" }
            else st
      { st1 with messages := st1.messages ++ [⟨"assistant", reply⟩], busy := false }

/-- One complete `sendUser` turn in which the outbound call, if invoked,
completes with `res` and no other event interleaves. -/
def sendUser (st : AppState) (text : String) (now : Int) (res : CallResult) :
    AppState × Bool :=
  let r := sendUserStart st text now
  (if r.2 then sendUserFinish r.1 text res else r.1, r.2)

/-- The `resetSession` handler: clears the conversation, the extracted
YAML, the drawer and the error banner; settings are untouched. -/
def resetSession (st : AppState) : AppState :=
  { st with messages := [], lastYaml := "", drawerOpen := false, error := "" }

/-- The guard prefix of `startSession` relevant to the debounce claim:
the busy check, then the same shared `canAct` guard used by `sendUser`
(the debounce is global across action types).  Returns the state after
the guards and whether the start proceeded past them. -/
def startSessionGuard (st : AppState) (now : Int) : AppState × Bool :=
  if st.busy then (st, false)
  else
    let g := canAct st.lastAction now
    ({ st with lastAction := g.2 }, g.1)

/-- Digit of the standard base64 alphabet used by `btoa`. -/
def b64digit (n : Nat) : Char :=
  if n < 26 then Char.ofNat (65 + n)
  else if n < 52 then Char.ofNat (97 + (n - 26))
  else if n < 62 then Char.ofNat (48 + (n - 52))
  else if n = 62 then '+' else '/'

/-- Inverse base64 digit lookup as performed by `atob`. -/
def b64val (c : Char) : Option Nat :=
  if 'A' ≤ c ∧ c ≤ 'Z' then some (c.toNat - 65)
  else if 'a' ≤ c ∧ c ≤ 'z' then some (c.toNat - 97 + 26)
  else if '0' ≤ c ∧ c ≤ '9' then some (c.toNat - 48 + 52)
  else if c = '+' then some 62
  else if c = '/' then some 63
  else none

/-- `btoa` on a byte sequence: 3 bytes to 4 digits, `=`-padded. -/
def b64encode : List Nat → List Char
  | [] => []
  | [b1] => [b64digit (b1 / 4), b64digit (b1 % 4 * 16), '=', '=']
  | [b1, b2] =>
      [b64digit (b1 / 4), b64digit (b1 % 4 * 16 + b2 / 16), b64digit (b2 % 16 * 4), '=']
  | b1 :: b2 :: b3 :: rest =>
      b64digit (b1 / 4) :: b64digit (b1 % 4 * 16 + b2 / 16) ::
      b64digit (b2 % 16 * 4 + b3 / 64) :: b64digit (b3 % 64) :: b64encode rest

/-- `atob`: decode 4-digit groups; `=` padding only at the very end
(anything else throws, modelled as `none`). -/
def b64decode : List Char → Option (List Nat)
  | [] => some []
  | c1 :: c2 :: c3 :: c4 :: rest =>
      match b64val c1, b64val c2 with
      | some n1, some n2 =>
          if c3 = '=' ∧ c4 = '=' ∧ rest = [] then some [n1 * 4 + n2 / 16]
          else
            match b64val c3 with
            | some n3 =>
                if c4 = '=' ∧ rest = [] then
                  some [n1 * 4 + n2 / 16, n2 % 16 * 16 + n3 / 4]
                else
                  match b64val c4, b64decode rest with
                  | some n4, some bs =>
                      some ((n1 * 4 + n2 / 16) :: (n2 % 16 * 16 + n3 / 4) ::
                            (n3 % 4 * 64 + n4) :: bs)
                  | _, _ => none
            | none => none
      | _, _ => none
  | _ => none

theorem b64val_digit_fin : ∀ n : Fin 64, b64val (b64digit n.val) = some n.val := by decide

theorem b64val_b64digit {n : Nat} (h : n < 64) : b64val (b64digit n) = some n :=
  b64val_digit_fin ⟨n, h⟩

theorem b64digit_ne_pad_fin : ∀ n : Fin 64, b64digit n.val ≠ '=' := by decide

theorem b64digit_ne_pad {n : Nat} (h : n < 64) : b64digit n ≠ '=' :=
  b64digit_ne_pad_fin ⟨n, h⟩

theorem b64decode_encode : ∀ bs : List Nat, (∀ b ∈ bs, b < 256) →
    b64decode (b64encode bs) = some bs := by
  intro bs
  induction bs using b64encode.induct with
  | case1 => intro h; simp [b64encode, b64decode]
  | case2 b1 =>
      intro h
      have hb1 : b1 < 256 := h b1 (by simp)
      have h1 : b1 / 4 < 64 := by omega
      have h2 : b1 % 4 * 16 < 64 := by omega
      simp only [b64encode, b64decode, b64val_b64digit h1, b64val_b64digit h2]
      rw [if_pos (by simp)]
      have : b1 / 4 * 4 + b1 % 4 * 16 / 16 = b1 := by omega
      rw [this]
  | case3 b1 b2 =>
      intro h
      have hb1 : b1 < 256 := h b1 (by simp)
      have hb2 : b2 < 256 := h b2 (by simp)
      have h1 : b1 / 4 < 64 := by omega
      have h2 : b1 % 4 * 16 + b2 / 16 < 64 := by omega
      have h3 : b2 % 16 * 4 < 64 := by omega
      simp only [b64encode, b64decode, b64val_b64digit h1, b64val_b64digit h2]
      rw [if_neg (fun hc => b64digit_ne_pad h3 hc.1)]
      simp only [b64val_b64digit h3]
      rw [if_pos (by simp)]
      have e1 : b1 / 4 * 4 + (b1 % 4 * 16 + b2 / 16) / 16 = b1 := by omega
      have e2 : (b1 % 4 * 16 + b2 / 16) % 16 * 16 + b2 % 16 * 4 / 4 = b2 := by omega
      rw [e1, e2]
  | case4 b1 b2 b3 rest ih =>
      intro h
      have hb1 : b1 < 256 := h b1 (by simp)
      have hb2 : b2 < 256 := h b2 (by simp)
      have hb3 : b3 < 256 := h b3 (by simp)
      have hrest : ∀ b ∈ rest, b < 256 := fun b hb => h b (by simp [hb])
      have h1 : b1 / 4 < 64 := by omega
      have h2 : b1 % 4 * 16 + b2 / 16 < 64 := by omega
      have h3 : b2 % 16 * 4 + b3 / 64 < 64 := by omega
      have h4 : b3 % 64 < 64 := by omega
      simp only [b64encode, b64decode, b64val_b64digit h1, b64val_b64digit h2]
      rw [if_neg (fun hc => b64digit_ne_pad h3 hc.1)]
      simp only [b64val_b64digit h3]
      rw [if_neg (fun hc => b64digit_ne_pad h4 hc.1)]
      simp only [b64val_b64digit h4, ih hrest]
      have e1 : b1 / 4 * 4 + (b1 % 4 * 16 + b2 / 16) / 16 = b1 := by omega
      have e2 : (b1 % 4 * 16 + b2 / 16) % 16 * 16 + (b2 % 16 * 4 + b3 / 64) / 4 = b2 := by
        omega
      have e3 : (b2 % 16 * 4 + b3 / 64) % 4 * 64 + b3 % 64 = b3 := by omega
      rw [e1, e2, e3]

/-- Number of `=` padding characters `btoa` appends for `n` input bytes. -/
def padLen (n : Nat) : Nat := (3 - n % 3) % 3

theorem b64encode_shape : ∀ bs : List Nat, (∀ b ∈ bs, b < 256) →
    ∃ body : List Char,
      b64encode bs = body ++ List.replicate (padLen bs.length) '=' ∧
      (∀ c ∈ body, ∃ n : Nat, n < 64 ∧ c = b64digit n) ∧
      (body.length + padLen bs.length) % 4 = 0 ∧
      padLen bs.length ≤ 2 := by
  intro bs
  induction bs using b64encode.induct with
  | case1 => exact fun h => ⟨[], by simp [b64encode, padLen]⟩
  | case2 b1 =>
      intro h
      have hb1 : b1 < 256 := h b1 (by simp)
      refine ⟨[b64digit (b1 / 4), b64digit (b1 % 4 * 16)], ?_⟩
      refine ⟨by simp [b64encode, padLen, List.replicate], ?_, by simp [padLen],
        by simp [padLen]⟩
      intro c hc
      simp at hc
      rcases hc with rfl | rfl
      · exact ⟨b1 / 4, by omega, rfl⟩
      · exact ⟨b1 % 4 * 16, by omega, rfl⟩
  | case3 b1 b2 =>
      intro h
      have hb1 : b1 < 256 := h b1 (by simp)
      have hb2 : b2 < 256 := h b2 (by simp)
      refine ⟨[b64digit (b1 / 4), b64digit (b1 % 4 * 16 + b2 / 16),
        b64digit (b2 % 16 * 4)], ?_⟩
      refine ⟨by simp [b64encode, padLen, List.replicate], ?_, by simp [padLen],
        by simp [padLen]⟩
      intro c hc
      simp at hc
      rcases hc with rfl | rfl | rfl
      · exact ⟨b1 / 4, by omega, rfl⟩
      · exact ⟨b1 % 4 * 16 + b2 / 16, by omega, rfl⟩
      · exact ⟨b2 % 16 * 4, by omega, rfl⟩
  | case4 b1 b2 b3 rest ih =>
      intro h
      have hb1 : b1 < 256 := h b1 (by simp)
      have hb2 : b2 < 256 := h b2 (by simp)
      have hb3 : b3 < 256 := h b3 (by simp)
      have hrest : ∀ b ∈ rest, b < 256 := fun b hb => h b (by simp [hb])
      obtain ⟨body, hbody, hdig, hmod, hpad⟩ := ih hrest
      have hp : padLen ((b1 :: b2 :: b3 :: rest).length) = padLen rest.length := by
        simp only [padLen, List.length_cons]
        omega
      refine ⟨b64digit (b1 / 4) :: b64digit (b1 % 4 * 16 + b2 / 16) ::
              b64digit (b2 % 16 * 4 + b3 / 64) :: b64digit (b3 % 64) :: body,
              ?_, ?_, ?_, ?_⟩
      · rw [hp]
        simp only [b64encode, hbody]
        simp
      · intro c hc
        simp at hc
        rcases hc with rfl | rfl | rfl | rfl | hc
        · exact ⟨b1 / 4, by omega, rfl⟩
        · exact ⟨b1 % 4 * 16 + b2 / 16, by omega, rfl⟩
        · exact ⟨b2 % 16 * 4 + b3 / 64, by omega, rfl⟩
        · exact ⟨b3 % 64, by omega, rfl⟩
        · exact hdig c hc
      · rw [hp]
        simp only [List.length_cons]
        omega
      · rw [hp]; exact hpad

/-- UTF-8 encoding of one Unicode scalar value.  In the source the byte
sequence of a string is exposed by the composite
`unescape(encodeURIComponent(str))`, whose result has exactly the UTF-8
bytes of `str` as its character codes; we model the bytes directly. -/
def utf8EncodeChar (c : Char) : List Nat :=
  let n := c.toNat
  if n < 128 then [n]
  else if n < 2048 then [192 + n / 64, 128 + n % 64]
  else if n < 65536 then [224 + n / 4096, 128 + n / 64 % 64, 128 + n % 64]
  else [240 + n / 262144, 128 + n / 4096 % 64, 128 + n / 64 % 64, 128 + n % 64]

/-- UTF-8 encoding of a string's characters. -/
def utf8Encode : List Char → List Nat
  | [] => []
  | c :: t => utf8EncodeChar c ++ utf8Encode t

/-- UTF-8 decoding (the composite `decodeURIComponent(escape(str))`);
fails on malformed sequences, as the real composite throws `URIError`.
Fuel only forces termination; one unit per decoded character suffices. -/
def utf8DecodeF (fuel : Nat) (l : List Nat) : Option (List Char) :=
  match fuel, l with
  | _, [] => some []
  | 0, _ => none
  | fuel + 1, b :: rest =>
      if b < 128 then (utf8DecodeF fuel rest).map (fun cs => Char.ofNat b :: cs)
      else if b < 192 then none
      else if b < 224 then
        match rest with
        | b2 :: r =>
            if 128 ≤ b2 ∧ b2 < 192 then
              (utf8DecodeF fuel r).map (fun cs =>
                Char.ofNat ((b - 192) * 64 + (b2 - 128)) :: cs)
            else none
        | [] => none
      else if b < 240 then
        match rest with
        | b2 :: b3 :: r =>
            if (128 ≤ b2 ∧ b2 < 192) ∧ (128 ≤ b3 ∧ b3 < 192) then
              (utf8DecodeF fuel r).map (fun cs =>
                Char.ofNat ((b - 224) * 4096 + (b2 - 128) * 64 + (b3 - 128)) :: cs)
            else none
        | _ => none
      else if b < 248 then
        match rest with
        | b2 :: b3 :: b4 :: r =>
            if (128 ≤ b2 ∧ b2 < 192) ∧ (128 ≤ b3 ∧ b3 < 192) ∧ (128 ≤ b4 ∧ b4 < 192) then
              (utf8DecodeF fuel r).map (fun cs =>
                Char.ofNat ((b - 240) * 262144 + (b2 - 128) * 4096 +
                  (b3 - 128) * 64 + (b4 - 128)) :: cs)
            else none
        | _ => none
      else none

/-- UTF-8 decoding of a byte sequence. -/
def utf8Decode (l : List Nat) : Option (List Char) := utf8DecodeF l.length l

theorem char_toNat_lt (c : Char) : c.toNat < 1114112 := by
  have h := c.valid
  have he : c.toNat = c.val.toNat := rfl
  rcases h with h | h
  · omega
  · omega

theorem toNat_ofNat_valid {n : Nat} (h : n.isValidChar) : (Char.ofNat n).toNat = n := by
  simp [Char.ofNat, h, Char.ofNatAux, Char.toNat, UInt32.toNat, BitVec.toNat_ofNatLt]

theorem ofNat_eq_of_toNat {c : Char} {n : Nat} (h : n = c.toNat) : Char.ofNat n = c := by
  subst h
  exact Char.ofNat_toNat c

theorem utf8EncodeChar_length_pos (c : Char) : 1 ≤ (utf8EncodeChar c).length := by
  unfold utf8EncodeChar
  by_cases h1 : c.toNat < 128
  · simp [h1]
  · by_cases h2 : c.toNat < 2048
    · simp [h1, h2]
    · by_cases h3 : c.toNat < 65536
      · simp [h1, h2, h3]
      · simp [h1, h2, h3]

theorem utf8DecodeF_encode : ∀ (s : List Char) (fuel : Nat),
    (utf8Encode s).length ≤ fuel →
    utf8DecodeF fuel (utf8Encode s) = some s := by
  intro s
  induction s with
  | nil =>
      intro fuel hf
      match fuel with
      | 0 => rfl
      | fuel + 1 => rfl
  | cons c t ih =>
      intro fuel hf
      have hlen := utf8EncodeChar_length_pos c
      have hvalid := c.valid
      have hlt := char_toNat_lt c
      have henc : utf8Encode (c :: t) = utf8EncodeChar c ++ utf8Encode t := rfl
      rw [henc] at hf ⊢
      have htlen : (utf8Encode t).length ≤ fuel - 1 := by
        rw [List.length_append] at hf
        omega
      match fuel, hf with
      | 0, hf => exact absurd hf (by simp only [List.length_append]; omega)
      | fuel + 1, hf =>
      have htlen2 : (utf8Encode t).length ≤ fuel := by omega
      unfold utf8EncodeChar
      by_cases h1 : c.toNat < 128
      · simp only [h1, if_pos]
        have : ([c.toNat] : List Nat) ++ utf8Encode t = c.toNat :: utf8Encode t := rfl
        rw [this]
        simp only [utf8DecodeF, if_pos h1, ih fuel htlen2]
        simp [Char.ofNat_toNat]
      · by_cases h2 : c.toNat < 2048
        · simp only [h1, h2, if_neg, if_pos, if_false]
          have : ([192 + c.toNat / 64, 128 + c.toNat % 64] : List Nat) ++ utf8Encode t =
              (192 + c.toNat / 64) :: (128 + c.toNat % 64) :: utf8Encode t := rfl
          rw [this]
          have c1 : ¬(192 + c.toNat / 64 < 128) := by omega
          have c2 : ¬(192 + c.toNat / 64 < 192) := by omega
          have c3 : 192 + c.toNat / 64 < 224 := by omega
          have c4 : 128 ≤ 128 + c.toNat % 64 ∧ 128 + c.toNat % 64 < 192 := by omega
          simp only [utf8DecodeF, if_neg c1, if_neg c2, if_pos c3, if_pos c4,
            ih fuel htlen2]
          have hv : (192 + c.toNat / 64 - 192) * 64 + (128 + c.toNat % 64 - 128) =
              c.toNat := by omega
          rw [hv]
          simp [Char.ofNat_toNat]
        · by_cases h3 : c.toNat < 65536
          · simp only [h1, h2, h3, if_neg, if_pos, if_false]
            have : ([224 + c.toNat / 4096, 128 + c.toNat / 64 % 64, 128 + c.toNat % 64] :
                List Nat) ++ utf8Encode t =
                (224 + c.toNat / 4096) :: (128 + c.toNat / 64 % 64) ::
                (128 + c.toNat % 64) :: utf8Encode t := rfl
            rw [this]
            have c1 : ¬(224 + c.toNat / 4096 < 128) := by omega
            have c2 : ¬(224 + c.toNat / 4096 < 192) := by omega
            have c3 : ¬(224 + c.toNat / 4096 < 224) := by omega
            have c4 : 224 + c.toNat / 4096 < 240 := by omega
            have c5 : (128 ≤ 128 + c.toNat / 64 % 64 ∧ 128 + c.toNat / 64 % 64 < 192) ∧
                (128 ≤ 128 + c.toNat % 64 ∧ 128 + c.toNat % 64 < 192) := by omega
            simp only [utf8DecodeF, if_neg c1, if_neg c2, if_neg c3, if_pos c4, if_pos c5,
              ih fuel htlen2]
            have hv : (224 + c.toNat / 4096 - 224) * 4096 +
                (128 + c.toNat / 64 % 64 - 128) * 64 + (128 + c.toNat % 64 - 128) =
                c.toNat := by omega
            rw [hv]
            simp [Char.ofNat_toNat]
          · simp only [h1, h2, h3, if_neg, if_false]
            have : ([240 + c.toNat / 262144, 128 + c.toNat / 4096 % 64,
                128 + c.toNat / 64 % 64, 128 + c.toNat % 64] : List Nat) ++ utf8Encode t =
                (240 + c.toNat / 262144) :: (128 + c.toNat / 4096 % 64) ::
                (128 + c.toNat / 64 % 64) :: (128 + c.toNat % 64) :: utf8Encode t := rfl
            rw [this]
            have c1 : ¬(240 + c.toNat / 262144 < 128) := by omega
            have c2 : ¬(240 + c.toNat / 262144 < 192) := by omega
            have c3 : ¬(240 + c.toNat / 262144 < 224) := by omega
            have c4 : ¬(240 + c.toNat / 262144 < 240) := by omega
            have c5 : 240 + c.toNat / 262144 < 248 := by omega
            have c6 : (128 ≤ 128 + c.toNat / 4096 % 64 ∧ 128 + c.toNat / 4096 % 64 < 192) ∧
                (128 ≤ 128 + c.toNat / 64 % 64 ∧ 128 + c.toNat / 64 % 64 < 192) ∧
                (128 ≤ 128 + c.toNat % 64 ∧ 128 + c.toNat % 64 < 192) := by omega
            simp only [utf8DecodeF, if_neg c1, if_neg c2, if_neg c3, if_neg c4, if_pos c5,
              if_pos c6, ih fuel htlen2]
            have hv : (240 + c.toNat / 262144 - 240) * 262144 +
                (128 + c.toNat / 4096 % 64 - 128) * 4096 +
                (128 + c.toNat / 64 % 64 - 128) * 64 + (128 + c.toNat % 64 - 128) =
                c.toNat := by omega
            rw [hv]
            simp [Char.ofNat_toNat]

theorem utf8Decode_encode (s : List Char) :
    utf8Decode (utf8Encode s) = some s :=
  utf8DecodeF_encode s (utf8Encode s).length (Nat.le_refl _)

theorem utf8Encode_lt_256 : ∀ s : List Char, ∀ b ∈ utf8Encode s, b < 256 := by
  intro s
  induction s with
  | nil => intro b hb; simp [utf8Encode] at hb
  | cons c t ih =>
      intro b hb
      have : utf8Encode (c :: t) = utf8EncodeChar c ++ utf8Encode t := rfl
      rw [this] at hb
      rcases List.mem_append.mp hb with hb | hb
      · have hlt := char_toNat_lt c
        unfold utf8EncodeChar at hb
        by_cases h1 : c.toNat < 128
        · simp [h1] at hb; omega
        · by_cases h2 : c.toNat < 2048
          · simp [h1, h2] at hb
            rcases hb with rfl | rfl <;> omega
          · by_cases h3 : c.toNat < 65536
            · simp [h1, h2, h3] at hb
              rcases hb with rfl | rfl | rfl <;> omega
            · simp [h1, h2, h3] at hb
              rcases hb with rfl | rfl | rfl | rfl <;> omega
      · exact ih b hb

/-- Hex digit as emitted in `\u00XX` escapes of `JSON.stringify`. -/
def hexDigit (n : Nat) : Char :=
  if n < 10 then Char.ofNat (48 + n) else Char.ofNat (87 + n)

/-- Hex digit value as read by `JSON.parse` (either case accepted). -/
def hexVal (c : Char) : Option Nat :=
  if '0' ≤ c ∧ c ≤ '9' then some (c.toNat - 48)
  else if 'a' ≤ c ∧ c ≤ 'f' then some (c.toNat - 87)
  else if 'A' ≤ c ∧ c ≤ 'F' then some (c.toNat - 55)
  else none

/-- `JSON.stringify` escaping of one character inside a string literal:
quote and backslash escaped, the five short control escapes, `\u00XX`
for the remaining control characters, everything else verbatim. -/
def jsonEscapeChar (c : Char) : List Char :=
  if c = '"' then ['\\', '"']
  else if c = '\\' then ['\\', '\\']
  else if c = '\x08' then ['\\', 'b']
  else if c = '\t' then ['\\', 't']
  else if c = '\n' then ['\\', 'n']
  else if c = '\x0c' then ['\\', 'f']
  else if c = '\r' then ['\\', 'r']
  else if c.toNat < 32 then
    ['\\', 'u', '0', '0', hexDigit (c.toNat / 16), hexDigit (c.toNat % 16)]
  else [c]

/-- `JSON.stringify` escaping of a whole string body. -/
def jsonEscape : List Char → List Char
  | [] => []
  | c :: t => jsonEscapeChar c ++ jsonEscape t

/-- The simple escapes of a JSON string literal, decoded. -/
def decodeEsc (e : Char) : Option Char :=
  if e = '"' then some '"'
  else if e = '\\' then some '\\'
  else if e = '/' then some '/'
  else if e = 'b' then some '\x08'
  else if e = 'f' then some '\x0c'
  else if e = 'n' then some '\n'
  else if e = 'r' then some '\r'
  else if e = 't' then some '\t'
  else none

/-- One step of `JSON.parse` inside a string literal. -/
inductive JTok where
  | done (rest : List Char)
  | ch (c : Char) (rest : List Char)
  | bad
deriving DecidableEq

/-- Decode a `\uXXXX` escape body.  The value must denote a Unicode
scalar value (surrogate pairs are not modelled; the encoder side never
emits them). -/
def parseUEsc (r2 : List Char) : JTok :=
  match r2 with
  | h1 :: h2 :: h3 :: h4 :: r3 =>
      match hexVal h1, hexVal h2, hexVal h3, hexVal h4 with
      | some v1, some v2, some v3, some v4 =>
          if (((v1 * 16 + v2) * 16 + v3) * 16 + v4).isValidChar then
            JTok.ch (Char.ofNat (((v1 * 16 + v2) * 16 + v3) * 16 + v4)) r3
          else .bad
      | _, _, _, _ => .bad
  | _ => .bad

/-- Read one unit of a JSON string literal body: the closing quote, an
escape, or a plain character. -/
def parseJTok : List Char → JTok
  | [] => .bad
  | '"' :: r => .done r
  | '\\' :: e :: r2 =>
      if e = 'u' then parseUEsc r2
      else
        match decodeEsc e with
        | some d => .ch d r2
        | none => .bad
  | ['\\'] => .bad
  | c :: r => .ch c r

/-- `JSON.parse` of a string literal body (after the opening quote):
returns the decoded content and the text after the closing quote.  Fuel
only forces termination; one unit per decoded character suffices. -/
def parseJStringF (fuel : Nat) (l : List Char) : Option (List Char × List Char) :=
  match fuel with
  | 0 => none
  | fuel + 1 =>
      match parseJTok l with
      | .done r => some ([], r)
      | .ch c r => (parseJStringF fuel r).map (fun p => (c :: p.1, p.2))
      | .bad => none

/-- A settings record `{baseUrl, model, apiKey}`. -/
structure Config where
  baseUrl : String
  model : String
  apiKey : String
deriving DecidableEq

/-- A decoded JSON object as seen by `sanitizeConfig`: each field is a
string, or absent / not a string (`none`). -/
structure RawConfig where
  baseUrl : Option String
  model : Option String
  apiKey : Option String
deriving DecidableEq

/-- `sanitizeConfig`, closing over the current in-memory configuration
`cur`: `baseUrl` and `model` keep the trimmed decoded value when it is a
string with non-blank trim and fall back to the current value otherwise;
`apiKey` keeps any decoded string (blank included) and falls back only
when the decoded field is not a string. -/
def sanitizeConfig (cur : Config) (obj : RawConfig) : Config :=
  { baseUrl :=
      match obj.baseUrl with
      | some s => if ¬(jsTrim s.data).isEmpty then String.mk (jsTrim s.data) else cur.baseUrl
      | none => cur.baseUrl
    model :=
      match obj.model with
      | some s => if ¬(jsTrim s.data).isEmpty then String.mk (jsTrim s.data) else cur.model
      | none => cur.model
    apiKey :=
      match obj.apiKey with
      | some s => s
      | none => cur.apiKey }

/-- Serialisation of the config by `JSON.stringify` in `buildMagicLink`
(insertion order `baseUrl`, `model`, `apiKey`). -/
def cfgToJson (cfg : Config) : List Char :=
  '\x7b' :: ("\"baseUrl\":\"".data ++ jsonEscape cfg.baseUrl.data ++
  "\",\"model\":\"".data ++ jsonEscape cfg.model.data ++
  "\",\"apiKey\":\"".data ++ jsonEscape cfg.apiKey.data ++
  ['"', '\x7d'])

/-- Consume an expected literal. -/
def expectLit (pat : List Char) (s : List Char) : Option (List Char) :=
  if pat.isPrefixOf s then some (s.drop pat.length) else none

/-- `JSON.parse` specialised to the exact record shape produced by
`buildMagicLink` (the only shape the round-trip and counterexample
claims exercise); any other input is rejected, matching the fail-soft
`try/catch` around the real `JSON.parse`. -/
def parseCfgJson (l : List Char) : Option RawConfig :=
  match expectLit ('\x7b' :: "\"baseUrl\":\"".data) l with
  | none => none
  | some r1 =>
      match parseJStringF r1.length r1 with
      | none => none
      | some (b, r2) =>
          match expectLit ",\"model\":\"".data r2 with
          | none => none
          | some r3 =>
              match parseJStringF r3.length r3 with
              | none => none
              | some (m, r4) =>
                  match expectLit ",\"apiKey\":\"".data r4 with
                  | none => none
                  | some r5 =>
                      match parseJStringF r5.length r5 with
                      | none => none
                      | some (k, r6) =>
                          if r6 = ['\x7d'] then
                            some ⟨some (String.mk b), some (String.mk m),
                              some (String.mk k)⟩
                          else none

/-- URL-safe replacement applied by `toBase64Url`. -/
def mapUrlChar (c : Char) : Char :=
  if c = '+' then '-' else if c = '/' then '_' else c

/-- Inverse replacement applied by `fromBase64Url`. -/
def unmapUrlChar (c : Char) : Char :=
  if c = '-' then '+' else if c = '_' then '/' else c

/-- Strip the trailing `=` run (the regex replace `/=+$/`). -/
def stripTrailingEq (l : List Char) : List Char :=
  (l.reverse.dropWhile (fun c => c = '=')).reverse

/-- `toBase64Url(str)`: `btoa(unescape(encodeURIComponent(str)))`, then
`+` and `/` replaced by `-` and `_`, then trailing `=` stripped. -/
def toBase64Url (s : String) : List Char :=
  stripTrailingEq ((b64encode (utf8Encode s.data)).map mapUrlChar)

/-- `fromBase64Url(b64url)`: undo the URL-safe mapping, re-pad to a
multiple of four, `atob`, then `decodeURIComponent(escape(...))`; any
failure yields `null`. -/
def fromBase64Url (t : List Char) : Option String :=
  let b64 := t.map unmapUrlChar
  let pad := b64.length % 4
  let padded := if pad = 0 then b64 else b64 ++ List.replicate (4 - pad) '='
  match b64decode padded with
  | none => none
  | some bytes =>
      match utf8Decode bytes with
      | none => none
      | some cs => some (String.mk cs)

/-- The fragment of the URL built by `buildMagicLink`: `#cfg=<token>`. -/
def buildMagicHash (cfg : Config) : String :=
  String.mk ('#' :: "cfg=".data ++ toBase64Url (String.mk (cfgToJson cfg)))

/-- Character class `[A-Za-z0-9_\-]` of the fragment-token regex. -/
def isB64UrlChar (c : Char) : Bool :=
  decide ('A' ≤ c ∧ c ≤ 'Z') || decide ('a' ≤ c ∧ c ≤ 'z') ||
  decide ('0' ≤ c ∧ c ≤ '9') || c == '_' || c == '-'

/-- First match of `/[#&]cfg=([A-Za-z0-9_\-]+)/` over the hash text. -/
def findCfgToken : List Char → Option (List Char)
  | [] => none
  | c :: t =>
      if (c = '#' ∨ c = '&') ∧ ("cfg=".data).isPrefixOf t then
        let tok := (t.drop 4).takeWhile isB64UrlChar
        if tok.isEmpty then findCfgToken t else some tok
      else findCfgToken t

/-- `parseMagicLinkFromHash`, parameterised by the current in-memory
configuration that the inner `sanitizeConfig` call closes over.
`JSON.parse` results that are not objects make `sanitizeConfig` return
`null`; `parseCfgJson` already rejects them. -/
def parseMagicLinkFromHash (hash : String) (cur : Config) : Option Config :=
  if hash = "" then none
  else
    match findCfgToken hash.data with
    | none => none
    | some tok =>
        match fromBase64Url tok with
        | none => none
        | some json =>
            match parseCfgJson json.data with
            | none => none
            | some obj => some (sanitizeConfig cur obj)

theorem hexVal_hexDigit_fin : ∀ n : Fin 16, hexVal (hexDigit n.val) = some n.val := by decide

theorem hexVal_hexDigit {n : Nat} (h : n < 16) : hexVal (hexDigit n) = some n :=
  hexVal_hexDigit_fin ⟨n, h⟩


theorem parseJTok_plain {c : Char} (h1 : c ≠ '"') (h2 : c ≠ '\\') (r : List Char) :
    parseJTok (c :: r) = .ch c r := by
  rw [parseJTok.eq_def]
  split
  · rename_i heq; cases heq
  · rename_i heq; cases heq; exact absurd rfl h1
  · rename_i e r2 heq; cases heq; exact absurd rfl h2
  · rename_i heq; cases heq; exact absurd rfl h2
  · rename_i c2 r2 heq; cases heq; rfl

theorem parseJTok_escapeChar (c : Char) (rem : List Char) :
    parseJTok (jsonEscapeChar c ++ rem) = JTok.ch c rem := by
  unfold jsonEscapeChar
  by_cases h1 : c = '"'
  · subst h1; simp [parseJTok, decodeEsc]
  · rw [if_neg h1]
    by_cases h2 : c = '\\'
    · subst h2; simp [parseJTok, decodeEsc]
    · rw [if_neg h2]
      by_cases h3 : c = '\x08'
      · subst h3; simp [parseJTok, decodeEsc]
      · rw [if_neg h3]
        by_cases h4 : c = '\t'
        · subst h4; simp [parseJTok, decodeEsc]
        · rw [if_neg h4]
          by_cases h5 : c = '\n'
          · subst h5; simp [parseJTok, decodeEsc]
          · rw [if_neg h5]
            by_cases h6 : c = '\x0c'
            · subst h6; simp [parseJTok, decodeEsc]
            · rw [if_neg h6]
              by_cases h7 : c = '\r'
              · subst h7; simp [parseJTok, decodeEsc]
              · rw [if_neg h7]
                by_cases h8 : c.toNat < 32
                · rw [if_pos h8]
                  have hhi : c.toNat / 16 < 16 := by omega
                  have hlo : c.toNat % 16 < 16 := by omega
                  simp only [List.cons_append, List.nil_append, parseJTok, parseUEsc,
                    hexVal_hexDigit hhi, hexVal_hexDigit hlo, reduceIte]
                  simp only [show hexVal '0' = some 0 from rfl]
                  have hvv : (((0 * 16 + 0) * 16 + c.toNat / 16) * 16 + c.toNat % 16) =
                      c.toNat := by omega
                  rw [hvv]
                  have hvalid : (c.toNat).isValidChar := Or.inl (by omega)
                  rw [if_pos hvalid, Char.ofNat_toNat]
                · rw [if_neg h8]
                  simp only [List.cons_append, List.nil_append]
                  exact parseJTok_plain h1 h2 rem

theorem parseJStringF_escape : ∀ (s rest : List Char) (fuel : Nat),
    (jsonEscape s ++ '"' :: rest).length ≤ fuel →
    parseJStringF fuel (jsonEscape s ++ '"' :: rest) = some (s, rest) := by
  intro s
  induction s with
  | nil =>
      intro rest fuel hf
      simp only [jsonEscape, List.nil_append, List.length_cons] at hf ⊢
      match fuel, hf with
      | fuel + 1, hf => simp [parseJStringF, parseJTok]
  | cons c t ih =>
      intro rest fuel hf
      have henc : jsonEscape (c :: t) = jsonEscapeChar c ++ jsonEscape t := rfl
      rw [henc, List.append_assoc] at hf ⊢
      have hcl : 1 ≤ (jsonEscapeChar c).length := by
        unfold jsonEscapeChar
        repeat' split
        all_goals simp
      match fuel, hf with
      | 0, hf =>
          exfalso
          rw [List.length_append] at hf
          simp only [List.length_append, List.length_cons] at hf
          omega
      | fuel + 1, hf =>
          have hl : (jsonEscape t ++ '"' :: rest).length ≤ fuel := by
            rw [List.length_append] at hf
            simp only [List.length_append, List.length_cons] at hf ⊢
            omega
          rw [parseJStringF]
          rw [parseJTok_escapeChar c (jsonEscape t ++ '"' :: rest)]
          dsimp only
          rw [ih rest fuel hl]
          rfl

theorem expectLit_append (pat r : List Char) : expectLit pat (pat ++ r) = some r := by
  unfold expectLit
  rw [if_pos (by simp [List.isPrefixOf_iff_prefix])]
  rw [List.drop_left]

theorem parseCfgJson_cfgToJson (cfg : Config) :
    parseCfgJson (cfgToJson cfg) =
      some ⟨some cfg.baseUrl, some cfg.model, some cfg.apiKey⟩ := by
  have hshape : cfgToJson cfg =
      ('\x7b' :: "\"baseUrl\":\"".data) ++
      (jsonEscape cfg.baseUrl.data ++ '"' ::
        (",\"model\":\"".data ++ (jsonEscape cfg.model.data ++ '"' ::
          (",\"apiKey\":\"".data ++
            (jsonEscape cfg.apiKey.data ++ '"' :: ['\x7d']))))) := by
    simp [cfgToJson]
  rw [parseCfgJson, hshape, expectLit_append]
  dsimp only
  rw [parseJStringF_escape _ _ _ (Nat.le_refl _)]
  dsimp only
  rw [expectLit_append]
  dsimp only
  rw [parseJStringF_escape _ _ _ (Nat.le_refl _)]
  dsimp only
  rw [expectLit_append]
  dsimp only
  rw [parseJStringF_escape _ _ _ (Nat.le_refl _)]
  dsimp only
  rw [if_pos rfl]

theorem mapUrl_digit_fin : ∀ n : Fin 64,
    mapUrlChar (b64digit n.val) ≠ '=' ∧
    unmapUrlChar (mapUrlChar (b64digit n.val)) = b64digit n.val ∧
    isB64UrlChar (mapUrlChar (b64digit n.val)) = true := by decide

theorem dropWhileEq_replicate_append (k : Nat) (x : List Char) :
    (List.replicate k '=' ++ x).dropWhile (fun c => c = '=') =
      x.dropWhile (fun c => c = '=') := by
  induction k with
  | zero => simp
  | succ k ih =>
      rw [List.replicate_succ, List.cons_append, List.dropWhile_cons]
      simp [ih]

theorem stripTrailingEq_append_replicate (x : List Char) (k : Nat)
    (hx : ∀ c ∈ x, c ≠ '=') :
    stripTrailingEq (x ++ List.replicate k '=') = x := by
  unfold stripTrailingEq
  rw [List.reverse_append, List.reverse_replicate, dropWhileEq_replicate_append]
  cases hxr : x.reverse with
  | nil =>
      have : x = [] := by simpa using congrArg List.reverse hxr
      simp [this]
  | cons c t =>
      have hc : c ∈ x := by
        have h1 : c ∈ x.reverse := by rw [hxr]; simp
        simpa using h1
      rw [List.dropWhile_cons, if_neg (by simp [hx c hc]), ← hxr, List.reverse_reverse]

theorem fromBase64Url_toBase64Url (s : String) :
    fromBase64Url (toBase64Url s) = some s := by
  obtain ⟨body, hbody, hdig, hmod, hpad⟩ :=
    b64encode_shape (utf8Encode s.data) (utf8Encode_lt_256 s.data)
  set k := padLen (utf8Encode s.data).length with hk
  have hdig2 : ∀ c ∈ body, mapUrlChar c ≠ '=' ∧
      unmapUrlChar (mapUrlChar c) = c ∧ isB64UrlChar (mapUrlChar c) = true := by
    intro c hc
    obtain ⟨n, hn, rfl⟩ := hdig c hc
    exact mapUrl_digit_fin ⟨n, hn⟩
  have htok : toBase64Url s = body.map mapUrlChar := by
    unfold toBase64Url
    rw [hbody, List.map_append, List.map_replicate]
    have : mapUrlChar '=' = '=' := rfl
    rw [this]
    refine stripTrailingEq_append_replicate _ _ ?_
    intro c hc
    obtain ⟨d, hd, rfl⟩ := List.mem_map.mp hc
    exact (hdig2 d hd).1
  rw [htok]
  have hunmap : (body.map mapUrlChar).map unmapUrlChar = body := by
    rw [List.map_map]
    have hcg : ∀ c ∈ body, (unmapUrlChar ∘ mapUrlChar) c = id c := fun c hc =>
      (hdig2 c hc).2.1
    rw [List.map_congr_left hcg, List.map_id]
  have hbytes : ∀ b ∈ utf8Encode s.data, b < 256 := utf8Encode_lt_256 s.data
  simp only [fromBase64Url, hunmap]
  have hfin : ∀ padded, padded = body ++ List.replicate k '=' →
      (match b64decode padded with
        | none => none
        | some bytes =>
            match utf8Decode bytes with
            | none => none
            | some cs => some (String.mk cs)) = some s := by
    intro padded hp
    rw [hp, ← hbody, b64decode_encode _ hbytes]
    dsimp only
    rw [utf8Decode_encode]
  rcases (by omega : k = 0 ∨ k = 1 ∨ k = 2) with hk0 | hk1 | hk2
  · have hl : body.length % 4 = 0 := by omega
    rw [if_pos hl]
    exact hfin body (by rw [hk0]; simp)
  · have hl : body.length % 4 = 3 := by omega
    rw [if_neg (by omega), hl]
    exact hfin _ (by rw [hk1])
  · have hl : body.length % 4 = 2 := by omega
    rw [if_neg (by omega), hl]
    exact hfin _ (by rw [hk2])

theorem toBase64Url_props (s : String) :
    (∀ c ∈ toBase64Url s, isB64UrlChar c = true) ∧
    (s.data ≠ [] → toBase64Url s ≠ []) := by
  obtain ⟨body, hbody, hdig, hmod, hpad⟩ :=
    b64encode_shape (utf8Encode s.data) (utf8Encode_lt_256 s.data)
  have hdig2 : ∀ c ∈ body, mapUrlChar c ≠ '=' ∧
      unmapUrlChar (mapUrlChar c) = c ∧ isB64UrlChar (mapUrlChar c) = true := by
    intro c hc
    obtain ⟨n, hn, rfl⟩ := hdig c hc
    exact mapUrl_digit_fin ⟨n, hn⟩
  have htok : toBase64Url s = body.map mapUrlChar := by
    unfold toBase64Url
    rw [hbody, List.map_append, List.map_replicate]
    have h0 : mapUrlChar '=' = '=' := rfl
    rw [h0]
    refine stripTrailingEq_append_replicate _ _ ?_
    intro c hc
    obtain ⟨d, hd, rfl⟩ := List.mem_map.mp hc
    exact (hdig2 d hd).1
  constructor
  · intro c hc
    rw [htok] at hc
    obtain ⟨d, hd, rfl⟩ := List.mem_map.mp hc
    exact (hdig2 d hd).2.2
  · intro hne
    rw [htok]
    have henc : 4 ≤ (b64encode (utf8Encode s.data)).length := by
      match hu : utf8Encode s.data with
      | [] =>
          exfalso
          match hs : s.data, hne with
          | c :: t, _ =>
              have hstep : utf8Encode (c :: t) = utf8EncodeChar c ++ utf8Encode t := rfl
              rw [hs, hstep] at hu
              have hpos := utf8EncodeChar_length_pos c
              have hlen0 := congrArg List.length hu
              rw [List.length_append] at hlen0
              simp only [List.length_nil] at hlen0
              omega
      | [b1] => simp [b64encode]
      | [b1, b2] => simp [b64encode]
      | b1 :: b2 :: b3 :: rest => simp [b64encode]
    have hlenb := congrArg List.length hbody
    rw [List.length_append, List.length_replicate] at hlenb
    intro hcon
    have hb0 : body = [] := by simpa using hcon
    rw [hb0] at hlenb
    simp only [List.length_nil, Nat.zero_add] at hlenb
    omega

theorem findCfgToken_hash (tok : List Char) (hne : tok ≠ [])
    (hch : ∀ c ∈ tok, isB64UrlChar c = true) :
    findCfgToken ('#' :: ("cfg=".data ++ tok)) = some tok := by
  rw [findCfgToken]
  rw [if_pos ⟨Or.inl rfl, by simp [List.isPrefixOf_iff_prefix]⟩]
  have hdrop : ("cfg=".data ++ tok).drop 4 = tok := by
    have h4 : ("cfg=".data).length = 4 := rfl
    rw [← h4, List.drop_left]
  rw [hdrop]
  rw [List.takeWhile_eq_self_iff.mpr hch]
  rw [if_neg (by simpa [List.isEmpty_iff] using hne)]

theorem parseMagicLink_buildMagicHash (cfg cur : Config) :
    parseMagicLinkFromHash (buildMagicHash cfg) cur =
      some (sanitizeConfig cur ⟨some cfg.baseUrl, some cfg.model, some cfg.apiKey⟩) := by
  have hjson : (String.mk (cfgToJson cfg)).data = cfgToJson cfg := rfl
  have hne : (String.mk (cfgToJson cfg)).data ≠ [] := by
    rw [hjson]; simp [cfgToJson]
  obtain ⟨hch, hne2⟩ := toBase64Url_props (String.mk (cfgToJson cfg))
  have hhash : (buildMagicHash cfg).data =
      '#' :: ("cfg=".data ++ toBase64Url (String.mk (cfgToJson cfg))) := by
    simp [buildMagicHash]
  unfold parseMagicLinkFromHash
  rw [if_neg (by
    intro hcon
    have := congrArg String.data hcon
    rw [hhash] at this
    cases this)]
  rw [hhash, findCfgToken_hash _ (hne2 hne) hch]
  dsimp only
  rw [fromBase64Url_toBase64Url]
  dsimp only
  rw [parseCfgJson_cfgToJson]

/-- Claim C1 (corrected), counterexample: on the reply whose only fenced
block is `STATE\n:\n`, the extractor returns the block (the multiline
regex `\s*` crosses the line break between `STATE` and the colon), while
no single line of the block matches `^\s*STATE\s*:`, so the claim's
"contains a line matching" reading predicts absent. -/
theorem extractStateYaml_lineTest_mismatch :
    extractStateYaml "```\nSTATE\n:\n```" = some "STATE\n:" ∧
    extractStateYamlClaim "```\nSTATE\n:\n```" = none := by decide

/-- Claim C1 (amended): for every reply text, the extractor returns the
trimmed inner text of the last well-closed fenced region on which the
multiline pattern `^\s*STATE\s*:` matches (the whitespace may span line
breaks), and absent when no region qualifies; unterminated regions never
qualify and earlier qualifying regions are discarded. -/
theorem extractStateYaml_last_marked_block (text : String) :
    extractStateYaml text =
      (lastMatchingBlock blockHasState (scanBlocks text.data)).map
        (fun b => String.mk (jsTrim b)) := by
  unfold extractStateYaml scanBlocks
  rw [extractLoopF_eq text.data.length text.data (Nat.le_refl _) none]
  cases lastMatchingBlock blockHasState (scanBlocksF text.data.length text.data) <;> rfl

/-- Claim C6 (confirmed): the progress parser is total by construction;
on absent or empty input it returns `{current: absent, total: 8}`; on the
inline mapping with both fields it returns both; with `current_stage`
only, `stages_total` defaults to 8. -/
theorem parseStageProgress_cases :
    parseStageProgress none = ⟨none, 8⟩ ∧
    parseStageProgress (some "") = ⟨none, 8⟩ ∧
    parseStageProgress
      (some "progress: \x7bcurrent_stage: 3, stages_total: 8\x7d") = ⟨some 3, 8⟩ ∧
    parseStageProgress (some "progress: \x7bcurrent_stage: 5\x7d") = ⟨some 5, 8⟩ ∧
    parseStageProgress
      (some "STATE:\n  meta: \x7b\x7d\n  progress: \x7bcurrent_stage:2, stages_total:8, state_visible:false\x7d") =
      ⟨some 2, 8⟩ ∧
    parseStageProgress (some "no progress mapping here") = ⟨none, 8⟩ := by
  decide

/-- Claim C7 (confirmed): the debounce guard accepts an action 300ms or
more after the reference timestamp, rejects any action strictly within
300ms of the previous accepted one without updating the timestamp (so an
action exactly 300ms after the accepted one is accepted), and the guard
is global: a `sendUser` or `startSession` attempt within the window is a
complete no-op regardless of action type. -/
theorem debounce_guard (last t1 t2 : Int) (st : AppState) (msg : String)
    (h1 : 300 ≤ t1 - last) (h2 : t2 - t1 < 300)
    (hb : st.busy = false) (hla : st.lastAction = t1) :
    canAct last t1 = (true, t1) ∧
    canAct t1 t2 = (false, t1) ∧
    canAct t1 (t1 + 300) = (true, t1 + 300) ∧
    sendUserStart st msg t2 = (st, false) ∧
    startSessionGuard st t2 = (st, false) := by
  obtain ⟨ms, inp, bz, er, la, dr, ly, bu, mo, ak⟩ := st
  simp only at hb hla
  subst hb
  subst hla
  refine ⟨?_, ?_, ?_, ?_, ?_⟩
  · unfold canAct; rw [if_neg (by omega)]
  · unfold canAct; rw [if_pos (by omega)]
  · unfold canAct; rw [if_neg (by omega)]
  · have hg : canAct la t2 = (false, la) := by
      unfold canAct; rw [if_pos (by omega)]
    simp only [sendUserStart, hg, Bool.not_false, if_true, Bool.false_eq_true,
      if_false]
    split_ifs <;> rfl
  · have hg : canAct la t2 = (false, la) := by
      unfold canAct; rw [if_pos (by omega)]
    simp only [startSessionGuard, hg, Bool.false_eq_true, if_false]

/-- Witness for `debounce_guard` at `last = 0`, `t1 = 300`, `t2 = 400`. -/
theorem debounce_guard_witness :
    canAct 0 300 = (true, 300) ∧
    canAct 300 400 = (false, 300) ∧
    canAct 300 (300 + 300) = (true, 300 + 300) ∧
    sendUserStart ⟨[], "", false, "", 300, false, "", "b", "m", "k"⟩ "NEXT" 400 =
      (⟨[], "", false, "", 300, false, "", "b", "m", "k"⟩, false) ∧
    startSessionGuard ⟨[], "", false, "", 300, false, "", "b", "m", "k"⟩ 400 =
      (⟨[], "", false, "", 300, false, "", "b", "m", "k"⟩, false) :=
  debounce_guard 0 300 400 ⟨[], "", false, "", 300, false, "", "b", "m", "k"⟩ "NEXT"
    (by decide) (by decide) (by decide) (by decide)

/-- Claim C10 (confirmed): submitting input whose trimmed text is empty
is a complete no-op: the state (conversation, extracted YAML, drawer,
error, debounce timestamp, settings, composer input) is unchanged and
the call collaborator is not invoked. -/
theorem sendUser_blank_noop (st : AppState) (text : String) (now : Int)
    (res : CallResult) (h : (jsTrim text.data).isEmpty = true) :
    sendUser st text now res = (st, false) := by
  simp [sendUser, sendUserStart, h]

/-- Witness for `sendUser_blank_noop` on whitespace-only input. -/
theorem sendUser_blank_noop_witness :
    sendUser ⟨[], "x", false, "", 0, false, "", "b", "m", "k"⟩ "  " 1000 (.ok "r") =
      (⟨[], "x", false, "", 0, false, "", "b", "m", "k"⟩, false) :=
  sendUser_blank_noop ⟨[], "x", false, "", 0, false, "", "b", "m", "k"⟩ "  " 1000
    (.ok "r") (by decide)

/-- Claim C4 (confirmed): an accepted submission of the toggle command
while the extracted YAML is non-blank makes no outbound call, flips the
drawer visibility exactly once, and leaves the conversation, the
extracted YAML and the settings unchanged. -/
theorem sendUser_toggle_local (st : AppState) (text : String) (now : Int)
    (res : CallResult)
    (hbusy : st.busy = false)
    (hact : 300 ≤ now - st.lastAction)
    (htog : isToggleCommand text = true)
    (hyaml : (jsTrim st.lastYaml.data).isEmpty = false) :
    (sendUser st text now res).2 = false ∧
    (sendUser st text now res).1.messages = st.messages ∧
    (sendUser st text now res).1.drawerOpen = !st.drawerOpen ∧
    (sendUser st text now res).1.lastYaml = st.lastYaml ∧
    (sendUser st text now res).1.baseUrl = st.baseUrl ∧
    (sendUser st text now res).1.model = st.model ∧
    (sendUser st text now res).1.apiKey = st.apiKey := by
  have htrim : (jsTrim text.data).isEmpty = false := by
    unfold isToggleCommand at htog
    cases hj : jsTrim text.data with
    | nil => rw [hj] at htog; simp at htog
    | cons a b => simp [hj]
  have hyne : ¬(st.lastYaml == "") = true := by
    intro hcon
    have hy : st.lastYaml = "" := by simpa using hcon
    rw [hy] at hyaml
    simp [jsTrim] at hyaml
  have hcan : ¬(now - st.lastAction < 300) := by omega
  simp only [sendUser, sendUserStart, canAct, htrim, hbusy, htog, hyaml,
    if_neg hcan, Bool.false_eq_true, if_false, Bool.not_false, Bool.not_true,
    Bool.and_self, if_true]
  simp [hyne]

/-- Witness for `sendUser_toggle_local` on the input `" State "`. -/
theorem sendUser_toggle_local_witness :
    (sendUser ⟨[⟨"user", "hi"⟩], "", false, "", 0, false, "STATE: old", "b", "m", "k"⟩
      " State " 400 (.ok "r")).2 = false ∧
    (sendUser ⟨[⟨"user", "hi"⟩], "", false, "", 0, false, "STATE: old", "b", "m", "k"⟩
      " State " 400 (.ok "r")).1.messages = [⟨"user", "hi"⟩] ∧
    (sendUser ⟨[⟨"user", "hi"⟩], "", false, "", 0, false, "STATE: old", "b", "m", "k"⟩
      " State " 400 (.ok "r")).1.drawerOpen = !false ∧
    (sendUser ⟨[⟨"user", "hi"⟩], "", false, "", 0, false, "STATE: old", "b", "m", "k"⟩
      " State " 400 (.ok "r")).1.lastYaml = "STATE: old" ∧
    (sendUser ⟨[⟨"user", "hi"⟩], "", false, "", 0, false, "STATE: old", "b", "m", "k"⟩
      " State " 400 (.ok "r")).1.baseUrl = "b" ∧
    (sendUser ⟨[⟨"user", "hi"⟩], "", false, "", 0, false, "STATE: old", "b", "m", "k"⟩
      " State " 400 (.ok "r")).1.model = "m" ∧
    (sendUser ⟨[⟨"user", "hi"⟩], "", false, "", 0, false, "STATE: old", "b", "m", "k"⟩
      " State " 400 (.ok "r")).1.apiKey = "k" :=
  sendUser_toggle_local ⟨[⟨"user", "hi"⟩], "", false, "", 0, false, "STATE: old",
    "b", "m", "k"⟩ " State " 400 (.ok "r") (by decide) (by decide) (by decide) (by decide)

/-- Claim C5 (confirmed): when a submission reaches the outbound call and
the call fails, the conversation equals the pre-call conversation plus
exactly the triggering user message, the drawer visibility and the
extracted YAML are unchanged, the error message is surfaced, and `busy`
is cleared so the user can resubmit. -/
theorem sendUser_failure (st : AppState) (text : String) (now : Int) (msg : String)
    (hcall : (sendUserStart st text now).2 = true) :
    (sendUser st text now (.fail msg)).2 = true ∧
    (sendUser st text now (.fail msg)).1.messages = st.messages ++ [⟨"user", text⟩] ∧
    (sendUser st text now (.fail msg)).1.drawerOpen = st.drawerOpen ∧
    (sendUser st text now (.fail msg)).1.lastYaml = st.lastYaml ∧
    (sendUser st text now (.fail msg)).1.error = msg ∧
    (sendUser st text now (.fail msg)).1.busy = false := by
  simp only [sendUser, sendUserStart, canAct] at hcall ⊢
  split_ifs at hcall ⊢ <;> simp_all [sendUserFinish]

/-- Witness for `sendUser_failure` on a failing `NEXT` turn. -/
theorem sendUser_failure_witness :
    (sendUser ⟨[⟨"user", "hi"⟩], "", false, "", 0, true, "STATE: old", "b", "m", "k"⟩
      "NEXT" 400 (.fail "LLM error 500: boom")).2 = true ∧
    (sendUser ⟨[⟨"user", "hi"⟩], "", false, "", 0, true, "STATE: old", "b", "m", "k"⟩
      "NEXT" 400 (.fail "LLM error 500: boom")).1.messages =
        [⟨"user", "hi"⟩] ++ [⟨"user", "NEXT"⟩] ∧
    (sendUser ⟨[⟨"user", "hi"⟩], "", false, "", 0, true, "STATE: old", "b", "m", "k"⟩
      "NEXT" 400 (.fail "LLM error 500: boom")).1.drawerOpen = true ∧
    (sendUser ⟨[⟨"user", "hi"⟩], "", false, "", 0, true, "STATE: old", "b", "m", "k"⟩
      "NEXT" 400 (.fail "LLM error 500: boom")).1.lastYaml = "STATE: old" ∧
    (sendUser ⟨[⟨"user", "hi"⟩], "", false, "", 0, true, "STATE: old", "b", "m", "k"⟩
      "NEXT" 400 (.fail "LLM error 500: boom")).1.error = "LLM error 500: boom" ∧
    (sendUser ⟨[⟨"user", "hi"⟩], "", false, "", 0, true, "STATE: old", "b", "m", "k"⟩
      "NEXT" 400 (.fail "LLM error 500: boom")).1.busy = false :=
  sendUser_failure ⟨[⟨"user", "hi"⟩], "", false, "", 0, true, "STATE: old", "b", "m", "k"⟩
    "NEXT" 400 "LLM error 500: boom" (by decide)

/-- Claim C2 (corrected), counterexample: after a successful call whose
reply has no qualifying block, a user text that merely CONTAINS the word
STATE (here `"explain STATE please"`, which does not case-insensitively
equal the toggle command) still clears the extracted YAML and hides the
drawer, while the claim predicts both unchanged. -/
theorem sendUser_clears_on_word_match :
    isToggleCommand "explain STATE please" = false ∧
    extractStateYaml "Sure." = none ∧
    (sendUser ⟨[], "", false, "", 0, true, "STATE: x", "http://localhost:11434/v1",
        "m", ""⟩ "explain STATE please" 1000 (.ok "Sure.")).1.lastYaml = "" ∧
    (sendUser ⟨[], "", false, "", 0, true, "STATE: x", "http://localhost:11434/v1",
        "m", ""⟩ "explain STATE please" 1000 (.ok "Sure.")).1.drawerOpen = false ∧
    ¬((sendUser ⟨[], "", false, "", 0, true, "STATE: x", "http://localhost:11434/v1",
        "m", ""⟩ "explain STATE please" 1000 (.ok "Sure.")).1.lastYaml = "STATE: x") := by
  decide

/-- Claim C2 (amended): after a successful call on an accepted
submission, the update rule is: a found block is stored with the drawer
forced open; with no block found, if the user text CONTAINS the word
STATE at word boundaries (case-insensitive; not merely equals the toggle
command), the extracted YAML is cleared and the drawer forced closed;
otherwise both are unchanged.  The assistant reply is appended after the
user message in every success case. -/
theorem sendUser_success_rule (st : AppState) (text : String) (now : Int)
    (reply : String)
    (hcall : (sendUserStart st text now).2 = true) :
    (sendUser st text now (.ok reply)).2 = true ∧
    (sendUser st text now (.ok reply)).1.lastYaml =
      (match extractStateYaml reply with
        | some y => y
        | none => if containsWordSTATE text.data then "" else st.lastYaml) ∧
    (sendUser st text now (.ok reply)).1.drawerOpen =
      (match extractStateYaml reply with
        | some _ => true
        | none => if containsWordSTATE text.data then false else st.drawerOpen) ∧
    (sendUser st text now (.ok reply)).1.messages =
      st.messages ++ [⟨"user", text⟩, ⟨"assistant", reply⟩] := by
  simp only [sendUser, sendUserStart, canAct] at hcall ⊢
  split_ifs at hcall ⊢
  all_goals try simp_all
  all_goals
    cases hx : extractStateYaml reply with
    | some y => simp_all [sendUserFinish]
    | none => simp_all [sendUserFinish]

/-- Witness for `sendUser_success_rule` on a `NEXT` turn whose reply
carries a STATE block. -/
theorem sendUser_success_rule_witness :
    (sendUser ⟨[], "", false, "", 0, false, "", "b", "m", "k"⟩ "NEXT" 1000
      (.ok "done\n```\nSTATE: s1\n```")).2 = true ∧
    (sendUser ⟨[], "", false, "", 0, false, "", "b", "m", "k"⟩ "NEXT" 1000
      (.ok "done\n```\nSTATE: s1\n```")).1.lastYaml =
      (match extractStateYaml "done\n```\nSTATE: s1\n```" with
        | some y => y
        | none => if containsWordSTATE "NEXT".data then "" else "") ∧
    (sendUser ⟨[], "", false, "", 0, false, "", "b", "m", "k"⟩ "NEXT" 1000
      (.ok "done\n```\nSTATE: s1\n```")).1.drawerOpen =
      (match extractStateYaml "done\n```\nSTATE: s1\n```" with
        | some _ => true
        | none => if containsWordSTATE "NEXT".data then false else false) ∧
    (sendUser ⟨[], "", false, "", 0, false, "", "b", "m", "k"⟩ "NEXT" 1000
      (.ok "done\n```\nSTATE: s1\n```")).1.messages =
      [] ++ [⟨"user", "NEXT"⟩, ⟨"assistant", "done\n```\nSTATE: s1\n```"⟩] :=
  sendUser_success_rule ⟨[], "", false, "", 0, false, "", "b", "m", "k"⟩ "NEXT" 1000
    "done\n```\nSTATE: s1\n```" (by decide)

theorem string_data_ne_nil {s : String} (h : s ≠ "") : s.data ≠ [] := by
  intro hd
  apply h
  cases s with
  | mk d =>
      simp only at hd
      rw [hd]

/-- Fields that are already trimmed and non-blank pass through
`sanitizeConfig` unchanged (the `apiKey` passes through always). -/
theorem sanitizeConfig_id (cur cfg : Config)
    (hb : jsTrim cfg.baseUrl.data = cfg.baseUrl.data) (hbne : cfg.baseUrl ≠ "")
    (hm : jsTrim cfg.model.data = cfg.model.data) (hmne : cfg.model ≠ "") :
    sanitizeConfig cur ⟨some cfg.baseUrl, some cfg.model, some cfg.apiKey⟩ = cfg := by
  have hb2 : (jsTrim cfg.baseUrl.data).isEmpty = false := by
    rw [hb]
    simpa [List.isEmpty_iff] using string_data_ne_nil hbne
  have hm2 : (jsTrim cfg.model.data).isEmpty = false := by
    rw [hm]
    simpa [List.isEmpty_iff] using string_data_ne_nil hmne
  have hb3 : cfg.baseUrl.data.isEmpty = false := by rw [← hb]; exact hb2
  have hm3 : cfg.model.data.isEmpty = false := by rw [← hm]; exact hm2
  simp only [sanitizeConfig, hb, hm, hb3, hm3, Bool.false_eq_true, not_false_iff,
    if_true]

/-- Claim C3 (corrected), counterexample: for the record with an empty
`baseUrl` (ambient in-memory configuration at its defaults), decoding
the encoded link does not return the record — `sanitizeConfig` patches
the blank field from the ambient value. -/
theorem magicLink_roundtrip_blank_fails :
    parseMagicLinkFromHash (buildMagicHash ⟨"", "m", "k"⟩)
        ⟨"https://api.openai.com/v1", "gpt-4o-mini", ""⟩ =
      some ⟨"https://api.openai.com/v1", "m", "k"⟩ ∧
    ¬(parseMagicLinkFromHash (buildMagicHash ⟨"", "m", "k"⟩)
        ⟨"https://api.openai.com/v1", "gpt-4o-mini", ""⟩ =
      some ⟨"", "m", "k"⟩) := by decide

/-- Claim C3 (amended): decode after encode is the identity for every
configuration whose `baseUrl` and `model` are non-empty and already
trimmed (no leading or trailing whitespace); the `apiKey` may be any
Unicode string, including the empty string and strings containing `+`,
`/`, `=`.  Records with blank or untrimmed `baseUrl`/`model` are instead
patched by `sanitizeConfig` (see the counterexample). -/
theorem magicLink_roundtrip (cfg cur : Config)
    (hb : jsTrim cfg.baseUrl.data = cfg.baseUrl.data) (hbne : cfg.baseUrl ≠ "")
    (hm : jsTrim cfg.model.data = cfg.model.data) (hmne : cfg.model ≠ "") :
    parseMagicLinkFromHash (buildMagicHash cfg) cur = some cfg := by
  rw [parseMagicLink_buildMagicHash, sanitizeConfig_id cur cfg hb hbne hm hmne]

/-- Witness for `magicLink_roundtrip` on a configuration whose key holds
`+`, `/`, `=`, a space and a non-ASCII character. -/
theorem magicLink_roundtrip_witness :
    parseMagicLinkFromHash
        (buildMagicHash ⟨"https://api.openai.com/v1", "gpt-4o-mini", "sk+/= ké"⟩)
        ⟨"B", "M", "K"⟩ =
      some ⟨"https://api.openai.com/v1", "gpt-4o-mini", "sk+/= ké"⟩ :=
  magicLink_roundtrip ⟨"https://api.openai.com/v1", "gpt-4o-mini", "sk+/= ké"⟩
    ⟨"B", "M", "K"⟩ (by decide) (by decide) (by decide) (by decide)

/-- Claim C8 (corrected), counterexample: a decoded record whose
`apiKey` is the empty (blank) string does NOT have the key replaced by
the current in-memory value — the blank string is kept. -/
theorem sanitizeConfig_blank_apiKey_kept :
    (sanitizeConfig ⟨"B", "M", "K"⟩ ⟨some "B2", some "M2", some ""⟩).apiKey = "" ∧
    ¬((sanitizeConfig ⟨"B", "M", "K"⟩ ⟨some "B2", some "M2", some ""⟩).apiKey = "K") := by
  decide

/-- Claim C8 (amended): after decode, `baseUrl` and `model` are each
independently replaced by the current in-memory value when the decoded
field is absent or blank and otherwise stored TRIMMED, while `apiKey` is
replaced only when absent (a blank decoded key string is kept as is);
absent fields of the whole record fall back to the current values. -/
theorem sanitizeConfig_patch_rule (cur : Config) (b m k : String) :
    sanitizeConfig cur ⟨none, none, none⟩ = cur ∧
    sanitizeConfig cur ⟨some b, some m, some k⟩ =
      ⟨if (jsTrim b.data).isEmpty then cur.baseUrl else String.mk (jsTrim b.data),
       if (jsTrim m.data).isEmpty then cur.model else String.mk (jsTrim m.data),
       k⟩ := by
  constructor
  · rfl
  · by_cases hb : (jsTrim b.data).isEmpty <;>
      by_cases hm : (jsTrim m.data).isEmpty <;>
        simp [sanitizeConfig, hb, hm]

/-- Claim C9 (code bug): there is no reset/staleness guard in the
completion handler of `sendUser`.  If the session is reset while the
call is in flight, the eventual reply is applied to the fresh state: the
stale assistant message is appended to the now-empty transcript and the
stale block overwrites the cleared ExtractedState and forces the drawer
open, contradicting the required discard. -/
theorem stale_reply_applied_after_reset :
    (sendUserStart ⟨[⟨"user", "hi"⟩], "", false, "", 0, false, "STATE: old",
        "b", "m", "k"⟩ "NEXT" 1000).2 = true ∧
    resetSession (sendUserStart ⟨[⟨"user", "hi"⟩], "", false, "", 0, false,
        "STATE: old", "b", "m", "k"⟩ "NEXT" 1000).1 =
      ⟨[], "", true, "", 1000, false, "", "b", "m", "k"⟩ ∧
    sendUserFinish (resetSession (sendUserStart ⟨[⟨"user", "hi"⟩], "", false, "",
        0, false, "STATE: old", "b", "m", "k"⟩ "NEXT" 1000).1) "NEXT"
        (.ok "```\nSTATE: new\n```") =
      ⟨[⟨"assistant", "```\nSTATE: new\n```"⟩], "", false, "", 1000, true,
        "STATE: new", "b", "m", "k"⟩ := by decide
